import Mathlib

/-!
Shallow embedding of the RingCode encoder (`src/lib/ringcode.ts`) and the
linear-frame decoder (the unnamed decoder module).  JavaScript numbers that
hold byte values are modelled as `Nat`; `x & 0xFF` is written `x % 256`,
`x >> k` is written `x / 2 ^ k`, and `x & 1` is written `x % 2`, which are
exact identities on natural numbers.  The bitwise ORs of the source are kept
as `|||`.  Fallible paths (thrown errors / `null` returns) are `Option`.
-/

namespace RingCode

/-- Layout constant `SECTORS = [128, 192, 256, 256, 256, 256]` (6 rings). -/
def SECTORS : List Nat := [128, 192, 256, 256, 256, 256]

/-- Start pattern `Array(16).fill([1, 0]).flat()` - 32 alternating bits. -/
def START_PATTERN_BITS : List Nat := (List.replicate 16 ([1, 0] : List Nat)).flatten

/-- `HEADER_BYTES = 7`. -/
def HEADER_BYTES : Nat := 7

/-- `HEADER_BITS = HEADER_BYTES * 8`. -/
def HEADER_BITS : Nat := HEADER_BYTES * 8

/-- `capacityBits()` - sum of the sector counts. -/
def capacityBits : Nat := SECTORS.foldl (· + ·) 0

/-- `capacityDataBits()` - capacity minus start-pattern bits minus header bits. -/
def capacityDataBits : Nat := capacityBits - START_PATTERN_BITS.length - HEADER_BITS

/-- One byte flattened MSB-first: the encoder's inner loop
`for (i = 7; i >= 0; i--) bits.push((byte >> i) & 1)`. -/
def byteToBits (b : Nat) : List Nat :=
  [b / 128 % 2, b / 64 % 2, b / 32 % 2, b / 16 % 2, b / 8 % 2, b / 4 % 2, b / 2 % 2, b % 2]

/-- `bytesToBits` - flatten a byte sequence MSB-first. -/
def bytesToBits (bs : List Nat) : List Nat := (bs.map byteToBits).flatten

/-- `checksum8` - byte sum masked to 8 bits (both files define it identically). -/
def checksum8 (bs : List Nat) : Nat := bs.foldl (· + ·) 0 % 256

/-- `simpleRS(data, eccBytes)` - the data followed by `eccBytes` redundancy
bytes; redundancy byte `i` is `(XOR over j of data[j] * (i + 1)) & 0xFF`. -/
def simpleRS (data : List Nat) (eccBytes : Nat) : List Nat :=
  data ++ (List.range eccBytes).map
    (fun i => (data.foldl (fun sum d => sum ^^^ (d * (i + 1))) 0) % 256)

/-- The lookup `eccMap[eccLevel] || 32` with `eccMap = {0:8, 1:16, 2:32, 3:64}`:
an absent key yields `undefined`, and `undefined || 32` is `32`. -/
def eccMapLookup (eccLevel : Nat) : Nat :=
  if eccLevel = 0 then 8
  else if eccLevel = 1 then 16
  else if eccLevel = 2 then 32
  else if eccLevel = 3 then 64
  else 32

/-- Models the platform `TextEncoder` on one character: standard UTF-8
encoding of the scalar value `c.toNat`. -/
def utf8Char (c : Char) : List Nat :=
  if c.toNat < 128 then [c.toNat]
  else if c.toNat < 2048 then [192 + c.toNat / 64, 128 + c.toNat % 64]
  else if c.toNat < 65536 then
    [224 + c.toNat / 4096, 128 + c.toNat / 64 % 64, 128 + c.toNat % 64]
  else
    [240 + c.toNat / 262144, 128 + c.toNat / 4096 % 64, 128 + c.toNat / 64 % 64,
      128 + c.toNat % 64]

/-- Models `new TextEncoder().encode(text)`: UTF-8 bytes of the text. -/
def utf8Bytes (s : String) : List Nat := (s.data.map utf8Char).flatten

/-- `encodeText(text, eccLevel)` - `none` models the thrown
`Text too long` error; otherwise the full bit sequence.  The `Uint8Array`
stores `header[1] = eccLevel` truncated modulo 256. -/
def encodeText (text : String) (eccLevel : Nat) : Option (List Nat) :=
  let textBytes := utf8Bytes text
  let eccBytes := eccMapLookup eccLevel
  let dataBitsAvail := capacityDataBits - eccBytes * 8
  let maxPayloadBytes := dataBitsAvail / 8
  if textBytes.length > maxPayloadBytes then none
  else
    let payload := textBytes ++ List.replicate (maxPayloadBytes - textBytes.length) 0
    let encoded := simpleRS payload eccBytes
    let len := textBytes.length
    let header6 : List Nat :=
      [3, eccLevel % 256, len / 256 % 256, len % 256, eccBytes / 256 % 256, eccBytes % 256]
    let header := header6 ++ [checksum8 header6]
    let allBits := START_PATTERN_BITS ++ bytesToBits header ++ bytesToBits encoded
    let padded := allBits ++ List.replicate (capacityBits - allBits.length) 0
    some (padded.take capacityBits)

/-- The decoder's inner byte assembly `b = (b << 1) | bit` over one chunk of
eight bits (missing positions count as 0, as in `i + j < bits.length ? ... : 0`). -/
def byteOf8 (b0 b1 b2 b3 b4 b5 b6 b7 : Nat) : Nat :=
  ((((((((((((((0 <<< 1) ||| b0) <<< 1) ||| b1) <<< 1) ||| b2) <<< 1) ||| b3)
    <<< 1) ||| b4) <<< 1) ||| b5) <<< 1) ||| b6) <<< 1 ||| b7

/-- Decoder `bitsToBytes` - group bits into bytes MSB-first, zero padding the
final incomplete chunk. -/
def bitsToBytes (bits : List Nat) : List Nat :=
  (List.range ((bits.length + 7) / 8)).map (fun k =>
    byteOf8 (bits.getD (8 * k) 0) (bits.getD (8 * k + 1) 0) (bits.getD (8 * k + 2) 0)
      (bits.getD (8 * k + 3) 0) (bits.getD (8 * k + 4) 0) (bits.getD (8 * k + 5) 0)
      (bits.getD (8 * k + 6) 0) (bits.getD (8 * k + 7) 0))

/-- `rsDecodeSimple(codeword, eccLen)` - split off the redundancy bytes, and
reject when the data is empty or dominated (strictly more than 80 percent) by
0 or by 255 bytes.  The comparison `zeros > dataLen * 0.8` is exact here for
every data length the frame format can produce.  The `checkXor` of the source
is computed and discarded, exactly as in the source. -/
def rsDecodeSimple (codeword : List Nat) (eccLen : Nat) : Option (List Nat) :=
  let dataLen : Int := (codeword.length : Int) - (eccLen : Int)
  if dataLen ≤ 0 ∨ codeword.length < eccLen then none
  else
    let data := codeword.take dataLen.toNat
    let _checkXor := data.foldl (fun a b => a ^^^ b) 0
    let zeros := (data.filter (fun x => x = 0)).length
    let ones := (data.filter (fun x => x = 255)).length
    if 5 * (zeros : Int) > 4 * dataLen ∨ 5 * (ones : Int) > 4 * dataLen then none
    else some data

/-- The U+FFFD replacement character used by lossy text decoding. -/
def replacementChar : Char := Char.ofNat 65533

/-- A UTF-8 continuation byte is in the range `[128, 192)`. -/
def isCont (x : Nat) : Prop := 128 ≤ x ∧ x < 192

instance (x : Nat) : Decidable (isCont x) := by unfold isCont; infer_instance

/-- Scalar value of a 2-byte UTF-8 sequence. -/
def seq2Val (b b1 : Nat) : Nat := (b - 192) * 64 + (b1 - 128)

/-- Scalar value of a 3-byte UTF-8 sequence. -/
def seq3Val (b b1 b2 : Nat) : Nat := (b - 224) * 4096 + (b1 - 128) * 64 + (b2 - 128)

/-- Scalar value of a 4-byte UTF-8 sequence. -/
def seq4Val (b b1 b2 b3 : Nat) : Nat :=
  (b - 240) * 262144 + (b1 - 128) * 4096 + (b2 - 128) * 64 + (b3 - 128)

/-- First-continuation-byte range of a 3-byte sequence, per the WHATWG UTF-8
decoder: lead `E0` requires `[A0, C0)` (no overlongs), lead `ED` requires
`[80, A0)` (no surrogates), other leads require `[80, C0)`. -/
def cont3First (b b1 : Nat) : Prop :=
  if b = 224 then 160 ≤ b1 ∧ b1 < 192
  else if b = 237 then 128 ≤ b1 ∧ b1 < 160
  else 128 ≤ b1 ∧ b1 < 192

instance (b b1 : Nat) : Decidable (cont3First b b1) := by unfold cont3First; infer_instance

/-- First-continuation-byte range of a 4-byte sequence, per the WHATWG UTF-8
decoder: lead `F0` requires `[90, C0)` (no overlongs), lead `F4` requires
`[80, 90)` (scalar at most U+10FFFF), other leads require `[80, C0)`. -/
def cont4First (b b1 : Nat) : Prop :=
  if b = 240 then 144 ≤ b1 ∧ b1 < 192
  else if b = 244 then 128 ≤ b1 ∧ b1 < 144
  else 128 ≤ b1 ∧ b1 < 192

instance (b b1 : Nat) : Decidable (cont4First b b1) := by unfold cont4First; infer_instance

/-- One pass of the WHATWG UTF-8 decoder (lossy mode) with an explicit step
budget.  Each step consumes the lead byte together with the continuation
bytes that fit the sequence so far; when a byte fails its range test, the
valid prefix is replaced by a single U+FFFD and decoding resumes at the
failing byte (the maximal-subpart rule), and a sequence truncated by the end
of input also yields a single U+FFFD.  A budget of `bs.length` always
suffices, since every step consumes at least one byte
(`utf8DecodeGo_fuel` below). -/
def utf8DecodeGo : Nat → List Nat → List Char
  | _, [] => []
  | 0, _ :: _ => []
  | fuel + 1, b :: bs =>
    if b < 128 then Char.ofNat b :: utf8DecodeGo fuel bs
    else if b < 194 then replacementChar :: utf8DecodeGo fuel bs
    else if b < 224 then
      if 1 ≤ bs.length ∧ isCont (bs.getD 0 0) then
        Char.ofNat (seq2Val b (bs.getD 0 0)) :: utf8DecodeGo fuel (bs.drop 1)
      else replacementChar :: utf8DecodeGo fuel bs
    else if b < 240 then
      if 1 ≤ bs.length ∧ cont3First b (bs.getD 0 0) then
        if 2 ≤ bs.length ∧ isCont (bs.getD 1 0) then
          Char.ofNat (seq3Val b (bs.getD 0 0) (bs.getD 1 0)) :: utf8DecodeGo fuel (bs.drop 2)
        else replacementChar :: utf8DecodeGo fuel (bs.drop 1)
      else replacementChar :: utf8DecodeGo fuel bs
    else if b < 245 then
      if 1 ≤ bs.length ∧ cont4First b (bs.getD 0 0) then
        if 2 ≤ bs.length ∧ isCont (bs.getD 1 0) then
          if 3 ≤ bs.length ∧ isCont (bs.getD 2 0) then
            Char.ofNat (seq4Val b (bs.getD 0 0) (bs.getD 1 0) (bs.getD 2 0)) ::
              utf8DecodeGo fuel (bs.drop 3)
          else replacementChar :: utf8DecodeGo fuel (bs.drop 2)
        else replacementChar :: utf8DecodeGo fuel (bs.drop 1)
      else replacementChar :: utf8DecodeGo fuel bs
    else replacementChar :: utf8DecodeGo fuel bs

/-- The character sequence produced by the WHATWG UTF-8 decoder in lossy
mode, before BOM handling. -/
def utf8DecodeList (bs : List Nat) : List Char := utf8DecodeGo bs.length bs

/-- Models `new TextDecoder('utf-8', \x7b fatal: false \x7d).decode(bytes)`:
with `ignoreBOM` unset the decoder strips one leading byte-order mark
`EF BB BF` before decoding. -/
def utf8Decode (bs : List Nat) : String :=
  if bs.take 3 = [239, 187, 191] then String.mk (utf8DecodeList (bs.drop 3))
  else String.mk (utf8DecodeList bs)

/-- `tryDecodeLinear(linear)` - skip the start pattern, read and validate the
7-byte header, extract the codeword, validate redundancy, and decode the
payload bytes as text. -/
def tryDecodeLinear (linear : List Nat) : Option String :=
  let i := START_PATTERN_BITS.length
  if linear.length < i + HEADER_BITS then none
  else
    let hdrBits := (linear.drop i).take HEADER_BITS
    let hdr := bitsToBytes hdrBits
    if hdr.length ≠ 7 then none
    else
      let payloadLen := (hdr.getD 2 0 <<< 8) ||| hdr.getD 3 0
      let eccLen := (hdr.getD 4 0 <<< 8) ||| hdr.getD 5 0
      let checksumVal := hdr.getD 6 0
      if checksum8 (hdr.take 6) ≠ checksumVal then none
      else if payloadLen ≤ 0 then none
      else
        let capBytes := capacityDataBits / 8
        if payloadLen + eccLen > capBytes then none
        else
          let dataStart := i + HEADER_BITS
          let needBits := (payloadLen + eccLen) * 8
          if dataStart + needBits > linear.length then none
          else
            let codewordBits := (linear.drop dataStart).take needBits
            let codeword := bitsToBytes codewordBits
            match rsDecodeSimple codeword eccLen with
            | none => none
            | some decoded =>
              let msg := decoded.take payloadLen
              some (utf8Decode msg)

/-- The payload buffer built by `encodeText`: text bytes zero-padded to the
level's max payload size. -/
def encPayload (text : String) (lvl : Nat) : List Nat :=
  utf8Bytes text ++
    List.replicate ((capacityDataBits - eccMapLookup lvl * 8) / 8 - (utf8Bytes text).length) 0

/-- The first six header bytes built by `encodeText`. -/
def encHeader (text : String) (lvl : Nat) : List Nat :=
  [3, lvl % 256, (utf8Bytes text).length / 256 % 256, (utf8Bytes text).length % 256,
    eccMapLookup lvl / 256 % 256, eccMapLookup lvl % 256]

/-- The full bit sequence produced by a successful `encodeText` call. -/
def encBits (text : String) (lvl : Nat) : List Nat :=
  START_PATTERN_BITS ++
    bytesToBits (encHeader text lvl ++ [checksum8 (encHeader text lvl)]) ++
    bytesToBits (simpleRS (encPayload text lvl) (eccMapLookup lvl))

/-- A minimal 88-bit stream with a well-formed header (checksum 5 = 3+1+1),
used to witness C4. -/
def sampleStream : List Nat := List.replicate 32 0 ++ bytesToBits [3, 0, 0, 1, 0, 1, 5]

/-! ### Bit and byte helper lemmas -/

theorem lor_bit (b x : Nat) (hx : x ≤ 1) : (b <<< 1) ||| x = 2 * b + x := by
  interval_cases x
  · rw [Nat.shiftLeft_eq, pow_one]; simpa using Nat.mul_comm b 2
  · rw [Nat.shiftLeft_eq, pow_one]
    apply Nat.eq_of_testBit_eq
    intro i
    cases i with
    | zero => simp [Nat.testBit_lor, Nat.testBit_zero]; omega
    | succ j =>
      rw [Nat.testBit_lor, Nat.testBit_succ, Nat.testBit_succ, Nat.testBit_succ]
      have h1 : b * 2 / 2 = b := by omega
      have h2 : (2 * b + 1) / 2 = b := by omega
      have h3 : (1 : Nat) / 2 = 0 := by norm_num
      rw [h1, h2, h3, Nat.zero_testBit, Bool.or_false]

theorem byteOf8_eq (b0 b1 b2 b3 b4 b5 b6 b7 : Nat)
    (h0 : b0 ≤ 1) (h1 : b1 ≤ 1) (h2 : b2 ≤ 1) (h3 : b3 ≤ 1)
    (h4 : b4 ≤ 1) (h5 : b5 ≤ 1) (h6 : b6 ≤ 1) (h7 : b7 ≤ 1) :
    byteOf8 b0 b1 b2 b3 b4 b5 b6 b7 =
      128 * b0 + 64 * b1 + 32 * b2 + 16 * b3 + 8 * b4 + 4 * b5 + 2 * b6 + b7 := by
  unfold byteOf8
  rw [lor_bit _ _ h0, lor_bit _ _ h1, lor_bit _ _ h2, lor_bit _ _ h3,
    lor_bit _ _ h4, lor_bit _ _ h5, lor_bit _ _ h6, lor_bit _ _ h7]
  ring

theorem getD_le_one (l : List Nat) (h : ∀ x ∈ l, x ≤ 1) (m : Nat) : l.getD m 0 ≤ 1 := by
  rw [List.getD_eq_getElem?_getD]
  cases hm : l[m]? with
  | none => simp
  | some a =>
    rw [List.getElem?_eq_some] at hm
    obtain ⟨hlt, rfl⟩ := hm
    simpa using h _ (List.getElem_mem hlt)

theorem byteToBits_length (b : Nat) : (byteToBits b).length = 8 := rfl

theorem bytesToBits_length (bs : List Nat) : (bytesToBits bs).length = 8 * bs.length := by
  induction bs with
  | nil => rfl
  | cons b t ih =>
    simp only [bytesToBits, List.map_cons, List.flatten_cons, List.length_append,
      byteToBits_length, List.length_cons] at *
    omega

theorem bytesToBits_append (a b : List Nat) :
    bytesToBits (a ++ b) = bytesToBits a ++ bytesToBits b := by
  simp [bytesToBits]

theorem bytesToBits_mem_le_one (bs : List Nat) : ∀ x ∈ bytesToBits bs, x ≤ 1 := by
  intro x hx
  simp only [bytesToBits, List.mem_flatten, List.mem_map] at hx
  obtain ⟨l, ⟨b, _, rfl⟩, hxl⟩ := hx
  simp only [byteToBits, List.mem_cons, List.not_mem_nil, or_false] at hxl
  rcases hxl with rfl | rfl | rfl | rfl | rfl | rfl | rfl | rfl <;> omega

theorem bitsToBytes_nil : bitsToBytes [] = [] := rfl

theorem getD_cons8 (c0 c1 c2 c3 c4 c5 c6 c7 : Nat) (l : List Nat) (m : Nat) :
    (c0 :: c1 :: c2 :: c3 :: c4 :: c5 :: c6 :: c7 :: l).getD (m + 8) 0 = l.getD m 0 := by
  rw [show m + 8 = (m + 7) + 1 from rfl, List.getD_cons_succ,
    show m + 7 = (m + 6) + 1 from rfl, List.getD_cons_succ,
    show m + 6 = (m + 5) + 1 from rfl, List.getD_cons_succ,
    show m + 5 = (m + 4) + 1 from rfl, List.getD_cons_succ,
    show m + 4 = (m + 3) + 1 from rfl, List.getD_cons_succ,
    show m + 3 = (m + 2) + 1 from rfl, List.getD_cons_succ,
    show m + 2 = (m + 1) + 1 from rfl, List.getD_cons_succ,
    List.getD_cons_succ]

theorem bitsToBytes_cons8 (c0 c1 c2 c3 c4 c5 c6 c7 : Nat) (l : List Nat) :
    bitsToBytes (c0 :: c1 :: c2 :: c3 :: c4 :: c5 :: c6 :: c7 :: l) =
      byteOf8 c0 c1 c2 c3 c4 c5 c6 c7 :: bitsToBytes l := by
  have hlen : ((c0 :: c1 :: c2 :: c3 :: c4 :: c5 :: c6 :: c7 :: l).length + 7) / 8 =
      (l.length + 7) / 8 + 1 := by simp; omega
  simp only [bitsToBytes, hlen, List.range_succ_eq_map, List.map_cons, List.map_map]
  refine List.cons_eq_cons.mpr ⟨rfl, ?_⟩
  apply List.map_congr_left
  intro k _
  simp only [Function.comp_apply]
  have a0 : (c0 :: c1 :: c2 :: c3 :: c4 :: c5 :: c6 :: c7 :: l).getD (8 * Nat.succ k) 0 =
      l.getD (8 * k) 0 := by
    rw [show 8 * Nat.succ k = 8 * k + 8 by omega, getD_cons8]
  have a1 : (c0 :: c1 :: c2 :: c3 :: c4 :: c5 :: c6 :: c7 :: l).getD (8 * Nat.succ k + 1) 0 =
      l.getD (8 * k + 1) 0 := by
    rw [show 8 * Nat.succ k + 1 = (8 * k + 1) + 8 by omega, getD_cons8]
  have a2 : (c0 :: c1 :: c2 :: c3 :: c4 :: c5 :: c6 :: c7 :: l).getD (8 * Nat.succ k + 2) 0 =
      l.getD (8 * k + 2) 0 := by
    rw [show 8 * Nat.succ k + 2 = (8 * k + 2) + 8 by omega, getD_cons8]
  have a3 : (c0 :: c1 :: c2 :: c3 :: c4 :: c5 :: c6 :: c7 :: l).getD (8 * Nat.succ k + 3) 0 =
      l.getD (8 * k + 3) 0 := by
    rw [show 8 * Nat.succ k + 3 = (8 * k + 3) + 8 by omega, getD_cons8]
  have a4 : (c0 :: c1 :: c2 :: c3 :: c4 :: c5 :: c6 :: c7 :: l).getD (8 * Nat.succ k + 4) 0 =
      l.getD (8 * k + 4) 0 := by
    rw [show 8 * Nat.succ k + 4 = (8 * k + 4) + 8 by omega, getD_cons8]
  have a5 : (c0 :: c1 :: c2 :: c3 :: c4 :: c5 :: c6 :: c7 :: l).getD (8 * Nat.succ k + 5) 0 =
      l.getD (8 * k + 5) 0 := by
    rw [show 8 * Nat.succ k + 5 = (8 * k + 5) + 8 by omega, getD_cons8]
  have a6 : (c0 :: c1 :: c2 :: c3 :: c4 :: c5 :: c6 :: c7 :: l).getD (8 * Nat.succ k + 6) 0 =
      l.getD (8 * k + 6) 0 := by
    rw [show 8 * Nat.succ k + 6 = (8 * k + 6) + 8 by omega, getD_cons8]
  have a7 : (c0 :: c1 :: c2 :: c3 :: c4 :: c5 :: c6 :: c7 :: l).getD (8 * Nat.succ k + 7) 0 =
      l.getD (8 * k + 7) 0 := by
    rw [show 8 * Nat.succ k + 7 = (8 * k + 7) + 8 by omega, getD_cons8]
  rw [a0, a1, a2, a3, a4, a5, a6, a7]

theorem bytesToBits_cons (b : Nat) (t : List Nat) :
    bytesToBits (b :: t) = byteToBits b ++ bytesToBits t := rfl

theorem byteOf8_byteToBits (b : Nat) (hb : b < 256) :
    byteOf8 (b / 128 % 2) (b / 64 % 2) (b / 32 % 2) (b / 16 % 2) (b / 8 % 2) (b / 4 % 2)
      (b / 2 % 2) (b % 2) = b := by
  rw [byteOf8_eq] <;> omega

theorem bitsToBytes_bytesToBits (bs : List Nat) (h : ∀ b ∈ bs, b < 256) :
    bitsToBytes (bytesToBits bs) = bs := by
  induction bs with
  | nil => rfl
  | cons b t ih =>
    rw [bytesToBits_cons]
    show bitsToBytes (b / 128 % 2 :: b / 64 % 2 :: b / 32 % 2 :: b / 16 % 2 :: b / 8 % 2 ::
      b / 4 % 2 :: b / 2 % 2 :: b % 2 :: bytesToBits t) = b :: t
    rw [bitsToBytes_cons8, byteOf8_byteToBits b (h b (List.mem_cons_self b t)),
      ih (fun x hx => h x (List.mem_cons_of_mem b hx))]

/-! ### UTF-8 helper lemmas -/

theorem char_toNat_valid (c : Char) :
    c.toNat < 1114112 ∧ (c.toNat < 55296 ∨ 57343 < c.toNat) := by
  have he : c.toNat = c.val.toNat := rfl
  rcases c.valid with h | h <;> rw [he] <;> constructor <;> omega

theorem utf8Char_one (c : Char) (h : c.toNat < 128) : utf8Char c = [c.toNat] := by
  unfold utf8Char
  rw [if_pos h]

theorem utf8Char_two (c : Char) (h1 : 128 ≤ c.toNat) (h2 : c.toNat < 2048) :
    utf8Char c = [192 + c.toNat / 64, 128 + c.toNat % 64] := by
  unfold utf8Char
  rw [if_neg (by omega), if_pos h2]

theorem utf8Char_three (c : Char) (h1 : 2048 ≤ c.toNat) (h2 : c.toNat < 65536) :
    utf8Char c = [224 + c.toNat / 4096, 128 + c.toNat / 64 % 64, 128 + c.toNat % 64] := by
  unfold utf8Char
  rw [if_neg (by omega), if_neg (by omega), if_pos h2]

theorem utf8Char_four (c : Char) (h1 : 65536 ≤ c.toNat) :
    utf8Char c = [240 + c.toNat / 262144, 128 + c.toNat / 4096 % 64, 128 + c.toNat / 64 % 64,
      128 + c.toNat % 64] := by
  unfold utf8Char
  rw [if_neg (by omega), if_neg (by omega), if_neg (by omega)]

theorem utf8Char_lt_256 (c : Char) : ∀ x ∈ utf8Char c, x < 256 := by
  intro x hx
  have hv := char_toNat_valid c
  rcases Nat.lt_or_ge c.toNat 128 with h | h
  · rw [utf8Char_one c h] at hx
    simp at hx; omega
  · rcases Nat.lt_or_ge c.toNat 2048 with h2 | h2
    · rw [utf8Char_two c h h2] at hx
      simp at hx; rcases hx with rfl | rfl <;> omega
    · rcases Nat.lt_or_ge c.toNat 65536 with h3 | h3
      · rw [utf8Char_three c h2 h3] at hx
        simp at hx; rcases hx with rfl | rfl | rfl <;> omega
      · rw [utf8Char_four c h3] at hx
        simp at hx; rcases hx with rfl | rfl | rfl | rfl <;> omega

theorem utf8Bytes_lt_256 (s : String) : ∀ x ∈ utf8Bytes s, x < 256 := by
  intro x hx
  simp only [utf8Bytes, List.mem_flatten, List.mem_map] at hx
  obtain ⟨l, ⟨c, _, rfl⟩, hxl⟩ := hx
  exact utf8Char_lt_256 c x hxl

theorem utf8DecodeGo_nil (f : Nat) : utf8DecodeGo f [] = [] := by
  cases f <;> rfl

theorem utf8DecodeGo_fuel (f1 : Nat) : ∀ (f2 : Nat) (bs : List Nat),
    bs.length ≤ f1 → bs.length ≤ f2 → utf8DecodeGo f1 bs = utf8DecodeGo f2 bs := by
  induction f1 with
  | zero =>
    intro f2 bs h1 _
    have hb : bs = [] := List.length_eq_zero.mp (by omega)
    subst hb
    rw [utf8DecodeGo_nil, utf8DecodeGo_nil]
  | succ f ih =>
    intro f2 bs h1 h2
    cases bs with
    | nil => rw [utf8DecodeGo_nil, utf8DecodeGo_nil]
    | cons b t =>
      obtain ⟨f2', rfl⟩ : ∃ k, f2 = k + 1 := ⟨f2 - 1, by simp at h2; omega⟩
      simp only [List.length_cons] at h1 h2
      show utf8DecodeGo (f + 1) (b :: t) = utf8DecodeGo (f2' + 1) (b :: t)
      rw [utf8DecodeGo, utf8DecodeGo]
      have ht : t.length ≤ f := by omega
      have ht2 : t.length ≤ f2' := by omega
      split_ifs <;>
        first
        | rfl
        | exact congrArg _ (ih _ _ ht ht2)
        | exact congrArg _ (ih _ _ (by simp; omega) (by simp; omega))

theorem decode_step1 (b : Nat) (rest : List Nat) (hb : b < 128) :
    utf8DecodeList (b :: rest) = Char.ofNat b :: utf8DecodeList rest := by
  show utf8DecodeGo (rest.length + 1) (b :: rest) = _
  rw [utf8DecodeGo, if_pos hb]
  rfl

theorem decode_step2 (b b1 : Nat) (rest : List Nat) (hb : 194 ≤ b) (hb' : b < 224)
    (h1 : isCont b1) :
    utf8DecodeList (b :: b1 :: rest) =
      Char.ofNat (seq2Val b b1) :: utf8DecodeList rest := by
  show utf8DecodeGo (rest.length + 1 + 1) (b :: b1 :: rest) = _
  rw [utf8DecodeGo, if_neg (by omega), if_neg (by omega), if_pos (by omega),
    if_pos (⟨by simp, h1⟩ : 1 ≤ (b1 :: rest).length ∧ isCont ((b1 :: rest).getD 0 0))]
  show Char.ofNat (seq2Val b b1) :: utf8DecodeGo (rest.length + 1) rest = _
  rw [utf8DecodeGo_fuel (rest.length + 1) rest.length rest (by omega) (by omega)]
  rfl

theorem decode_step3 (b b1 b2 : Nat) (rest : List Nat) (hb : 224 ≤ b) (hb' : b < 240)
    (h1 : cont3First b b1) (h2 : isCont b2) :
    utf8DecodeList (b :: b1 :: b2 :: rest) =
      Char.ofNat (seq3Val b b1 b2) :: utf8DecodeList rest := by
  show utf8DecodeGo (rest.length + 1 + 1 + 1) (b :: b1 :: b2 :: rest) = _
  rw [utf8DecodeGo, if_neg (by omega), if_neg (by omega), if_neg (by omega), if_pos (by omega),
    if_pos (⟨by simp, h1⟩ :
      1 ≤ (b1 :: b2 :: rest).length ∧ cont3First b ((b1 :: b2 :: rest).getD 0 0)),
    if_pos (⟨by simp, h2⟩ :
      2 ≤ (b1 :: b2 :: rest).length ∧ isCont ((b1 :: b2 :: rest).getD 1 0))]
  show Char.ofNat (seq3Val b b1 b2) :: utf8DecodeGo (rest.length + 1 + 1) rest = _
  rw [utf8DecodeGo_fuel (rest.length + 1 + 1) rest.length rest (by omega) (by omega)]
  rfl

theorem decode_step4 (b b1 b2 b3 : Nat) (rest : List Nat) (hb : 240 ≤ b) (hb' : b < 245)
    (h1 : cont4First b b1) (h2 : isCont b2) (h3 : isCont b3) :
    utf8DecodeList (b :: b1 :: b2 :: b3 :: rest) =
      Char.ofNat (seq4Val b b1 b2 b3) :: utf8DecodeList rest := by
  show utf8DecodeGo (rest.length + 1 + 1 + 1 + 1) (b :: b1 :: b2 :: b3 :: rest) = _
  rw [utf8DecodeGo, if_neg (by omega), if_neg (by omega), if_neg (by omega), if_neg (by omega),
    if_pos (by omega),
    if_pos (⟨by simp, h1⟩ :
      1 ≤ (b1 :: b2 :: b3 :: rest).length ∧ cont4First b ((b1 :: b2 :: b3 :: rest).getD 0 0)),
    if_pos (⟨by simp, h2⟩ :
      2 ≤ (b1 :: b2 :: b3 :: rest).length ∧ isCont ((b1 :: b2 :: b3 :: rest).getD 1 0)),
    if_pos (⟨by simp, h3⟩ :
      3 ≤ (b1 :: b2 :: b3 :: rest).length ∧ isCont ((b1 :: b2 :: b3 :: rest).getD 2 0))]
  show Char.ofNat (seq4Val b b1 b2 b3) :: utf8DecodeGo (rest.length + 1 + 1 + 1) rest = _
  rw [utf8DecodeGo_fuel (rest.length + 1 + 1 + 1) rest.length rest (by omega) (by omega)]
  rfl

theorem utf8DecodeList_char (c : Char) (rest : List Nat) :
    utf8DecodeList (utf8Char c ++ rest) = c :: utf8DecodeList rest := by
  have hv := char_toNat_valid c
  have hofn := Char.ofNat_toNat c
  rcases Nat.lt_or_ge c.toNat 128 with h | h
  · rw [utf8Char_one c h]
    show utf8DecodeList (c.toNat :: rest) = _
    rw [decode_step1 _ _ h, hofn]
  · rcases Nat.lt_or_ge c.toNat 2048 with h2 | h2
    · rw [utf8Char_two c h h2]
      show utf8DecodeList ((192 + c.toNat / 64) :: (128 + c.toNat % 64) :: rest) = _
      rw [decode_step2 _ _ _ (by omega) (by omega) (by unfold isCont; omega)]
      rw [show seq2Val (192 + c.toNat / 64) (128 + c.toNat % 64) = c.toNat by
        unfold seq2Val; omega, hofn]
    · rcases Nat.lt_or_ge c.toNat 65536 with h3 | h3
      · rw [utf8Char_three c h2 h3]
        show utf8DecodeList
          ((224 + c.toNat / 4096) :: (128 + c.toNat / 64 % 64) :: (128 + c.toNat % 64) :: rest) = _
        have hseq : seq3Val (224 + c.toNat / 4096) (128 + c.toNat / 64 % 64)
            (128 + c.toNat % 64) = c.toNat := by unfold seq3Val; omega
        rw [decode_step3 _ _ _ _ (by omega) (by omega)
          (by unfold cont3First; split_ifs <;> omega)
          (by unfold isCont; omega), hseq, hofn]
      · rw [utf8Char_four c h3]
        show utf8DecodeList ((240 + c.toNat / 262144) :: (128 + c.toNat / 4096 % 64) ::
          (128 + c.toNat / 64 % 64) :: (128 + c.toNat % 64) :: rest) = _
        have hseq : seq4Val (240 + c.toNat / 262144) (128 + c.toNat / 4096 % 64)
            (128 + c.toNat / 64 % 64) (128 + c.toNat % 64) = c.toNat := by unfold seq4Val; omega
        rw [decode_step4 _ _ _ _ _ (by omega) (by omega)
          (by unfold cont4First; split_ifs <;> omega)
          (by unfold isCont; omega) (by unfold isCont; omega), hseq, hofn]

theorem utf8DecodeList_utf8Bytes (l : List Char) :
    utf8DecodeList ((l.map utf8Char).flatten) = l := by
  induction l with
  | nil => rfl
  | cons c t ih =>
    simp only [List.map_cons, List.flatten_cons]
    rw [utf8DecodeList_char, ih]

theorem utf8Bytes_take3_ne_bom (s : String)
    (hbom : s.data.head? ≠ some (Char.ofNat 65279)) :
    (utf8Bytes s).take 3 ≠ [239, 187, 191] := by
  cases hs : s.data with
  | nil =>
    unfold utf8Bytes
    rw [hs]
    simp
  | cons c cs =>
    have hcne : c.toNat ≠ 65279 := by
      intro hc
      apply hbom
      rw [hs]
      show some c = some (Char.ofNat 65279)
      rw [← hc, Char.ofNat_toNat]
    have hv := char_toNat_valid c
    unfold utf8Bytes
    rw [hs]
    simp only [List.map_cons, List.flatten_cons]
    rcases Nat.lt_or_ge c.toNat 128 with h | h
    · rw [utf8Char_one c h]
      intro heq
      simp only [List.cons_append, List.nil_append, List.take_succ_cons,
        List.cons.injEq] at heq
      omega
    · rcases Nat.lt_or_ge c.toNat 2048 with h2 | h2
      · rw [utf8Char_two c h h2]
        intro heq
        simp only [List.cons_append, List.nil_append, List.take_succ_cons,
          List.cons.injEq] at heq
        omega
      · rcases Nat.lt_or_ge c.toNat 65536 with h3 | h3
        · rw [utf8Char_three c h2 h3]
          intro heq
          simp only [List.cons_append, List.nil_append, List.take_succ_cons,
            List.take_zero, List.cons.injEq] at heq
          omega
        · rw [utf8Char_four c h3]
          intro heq
          simp only [List.cons_append, List.nil_append, List.take_succ_cons,
            List.take_zero, List.cons.injEq] at heq
          omega

theorem utf8Decode_utf8Bytes (s : String)
    (hbom : s.data.head? ≠ some (Char.ofNat 65279)) :
    utf8Decode (utf8Bytes s) = s := by
  unfold utf8Decode
  rw [if_neg (utf8Bytes_take3_ne_bom s hbom)]
  show String.mk (utf8DecodeList ((s.data.map utf8Char).flatten)) = s
  rw [utf8DecodeList_utf8Bytes]

/-! ### Encoder characterization -/

theorem capacityBits_eq : capacityBits = 1344 := by decide

theorem capacityDataBits_eq : capacityDataBits = 1256 := by decide

theorem start_pattern_length : START_PATTERN_BITS.length = 32 := by decide

theorem eccMapLookup_cases (lvl : Nat) :
    eccMapLookup lvl = 8 ∨ eccMapLookup lvl = 16 ∨ eccMapLookup lvl = 32 ∨
      eccMapLookup lvl = 64 := by
  unfold eccMapLookup
  split_ifs <;> simp

theorem maxPayload_eq (lvl : Nat) :
    (capacityDataBits - eccMapLookup lvl * 8) / 8 = 157 - eccMapLookup lvl := by
  rcases eccMapLookup_cases lvl with h | h | h | h <;> rw [h, capacityDataBits_eq]

theorem encPayload_length (text : String) (lvl : Nat)
    (h : (utf8Bytes text).length ≤ 157 - eccMapLookup lvl) :
    (encPayload text lvl).length = 157 - eccMapLookup lvl := by
  unfold encPayload
  rw [List.length_append, List.length_replicate, maxPayload_eq]
  omega

theorem encBits_length (text : String) (lvl : Nat)
    (h : (utf8Bytes text).length ≤ 157 - eccMapLookup lvl) :
    (encBits text lvl).length = 1344 := by
  unfold encBits
  rw [List.length_append, List.length_append, start_pattern_length, bytesToBits_length,
    bytesToBits_length, List.length_append, List.length_cons, List.length_nil]
  unfold simpleRS
  rw [List.length_append, List.length_map, List.length_range, encPayload_length text lvl h]
  have he : encHeader text lvl = [3, lvl % 256, (utf8Bytes text).length / 256 % 256,
    (utf8Bytes text).length % 256, eccMapLookup lvl / 256 % 256, eccMapLookup lvl % 256] := rfl
  rw [he]
  rcases eccMapLookup_cases lvl with h8 | h8 | h8 | h8 <;> rw [h8] <;> simp

theorem encodeText_eq_encBits (text : String) (lvl : Nat)
    (h : (utf8Bytes text).length ≤ 157 - eccMapLookup lvl) :
    encodeText text lvl = some (encBits text lvl) := by
  unfold encodeText
  rw [if_neg (by rw [maxPayload_eq]; omega)]
  dsimp only
  show some (List.take capacityBits
    (encBits text lvl ++ List.replicate (capacityBits - (encBits text lvl).length) 0)) =
    some (encBits text lvl)
  rw [encBits_length text lvl h, capacityBits_eq]
  show some (List.take 1344 (encBits text lvl ++ List.replicate 0 0)) = some (encBits text lvl)
  rw [List.replicate_zero, List.append_nil,
    show (1344 : Nat) = (encBits text lvl).length from (encBits_length text lvl h).symm,
    List.take_length]

/-! ### Decoder-side lemmas for the round trip -/

theorem bytesToBits_take (bs : List Nat) : ∀ k : Nat,
    (bytesToBits bs).take (8 * k) = bytesToBits (bs.take k) := by
  induction bs with
  | nil => intro k; simp [bytesToBits]
  | cons b t ih =>
    intro k
    cases k with
    | zero => simp [bytesToBits]
    | succ k =>
      rw [bytesToBits_cons, show 8 * (k + 1) = (byteToBits b).length + 8 * k by
        rw [byteToBits_length]; ring, List.take_append, ih k]
      rw [show (b :: t).take (k + 1) = b :: t.take k from rfl, bytesToBits_cons]

theorem simpleRS_lt_256 (data : List Nat) (n : Nat) (h : ∀ x ∈ data, x < 256) :
    ∀ x ∈ simpleRS data n, x < 256 := by
  intro x hx
  unfold simpleRS at hx
  rw [List.mem_append] at hx
  rcases hx with hx | hx
  · exact h x hx
  · rw [List.mem_map] at hx
    obtain ⟨i, _, rfl⟩ := hx
    exact Nat.mod_lt _ (by omega)

theorem checksum8_lt_256 (bs : List Nat) : checksum8 bs < 256 := Nat.mod_lt _ (by omega)

theorem encHeaderFull_lt_256 (text : String) (lvl : Nat) :
    ∀ x ∈ encHeader text lvl ++ [checksum8 (encHeader text lvl)], x < 256 := by
  intro x hx
  rw [List.mem_append] at hx
  rcases hx with hx | hx
  · unfold encHeader at hx
    simp only [List.mem_cons, List.not_mem_nil, or_false] at hx
    rcases hx with rfl | rfl | rfl | rfl | rfl | rfl <;> omega
  · simp only [List.mem_cons, List.not_mem_nil, or_false] at hx
    rw [hx]
    exact checksum8_lt_256 _

theorem encPayload_lt_256 (text : String) (lvl : Nat) :
    ∀ x ∈ encPayload text lvl, x < 256 := by
  intro x hx
  unfold encPayload at hx
  rw [List.mem_append] at hx
  rcases hx with hx | hx
  · exact utf8Bytes_lt_256 text x hx
  · rw [List.eq_of_mem_replicate hx]; omega

theorem take_encPayload (text : String) (lvl : Nat) :
    (encPayload text lvl).take (utf8Bytes text).length = utf8Bytes text := by
  unfold encPayload
  rw [List.take_append_of_le_length (le_refl _), List.take_length]

theorem rsDecodeSimple_encoded (text : String) (lvl : Nat)
    (hlen1 : 1 ≤ (utf8Bytes text).length)
    (hlen2 : (utf8Bytes text).length ≤ 157 - eccMapLookup lvl)
    (hz : 5 * ((utf8Bytes text).filter (fun x => x = 0)).length ≤ 4 * (utf8Bytes text).length)
    (ho : 5 * ((utf8Bytes text).filter (fun x => x = 255)).length ≤
      4 * (utf8Bytes text).length) :
    rsDecodeSimple
      ((simpleRS (encPayload text lvl) (eccMapLookup lvl)).take
        ((utf8Bytes text).length + eccMapLookup lvl))
      (eccMapLookup lvl) = some (utf8Bytes text) := by
  have hecc : 8 ≤ eccMapLookup lvl ∧ eccMapLookup lvl ≤ 64 := by
    rcases eccMapLookup_cases lvl with h | h | h | h <;> rw [h] <;> omega
  have hplen : (encPayload text lvl).length = 157 - eccMapLookup lvl :=
    encPayload_length text lvl hlen2
  have hslen : (simpleRS (encPayload text lvl) (eccMapLookup lvl)).length = 157 := by
    unfold simpleRS
    rw [List.length_append, List.length_map, List.length_range, hplen]
    omega
  have hcwlen : ((simpleRS (encPayload text lvl) (eccMapLookup lvl)).take
      ((utf8Bytes text).length + eccMapLookup lvl)).length =
      (utf8Bytes text).length + eccMapLookup lvl := by
    rw [List.length_take, hslen]
    omega
  have hdata : ((simpleRS (encPayload text lvl) (eccMapLookup lvl)).take
      ((utf8Bytes text).length + eccMapLookup lvl)).take (utf8Bytes text).length =
      utf8Bytes text := by
    rw [List.take_take, min_eq_left (by omega)]
    show (encPayload text lvl ++ (List.range (eccMapLookup lvl)).map _).take
      (utf8Bytes text).length = _
    rw [List.take_append_of_le_length (by rw [hplen]; omega)]
    exact take_encPayload text lvl
  unfold rsDecodeSimple
  rw [if_neg (by rw [hcwlen]; push_neg; constructor <;> omega)]
  dsimp only
  rw [hcwlen]
  rw [show (((((utf8Bytes text).length + eccMapLookup lvl : Nat) : Int) -
    ((eccMapLookup lvl : Nat) : Int)).toNat) = (utf8Bytes text).length by omega]
  rw [hdata]
  rw [if_neg (by push_neg; constructor <;> push_cast <;> omega)]

theorem header_slice (text : String) (lvl : Nat) :
    ((encBits text lvl).drop START_PATTERN_BITS.length).take HEADER_BITS =
      bytesToBits (encHeader text lvl ++ [checksum8 (encHeader text lvl)]) := by
  unfold encBits
  rw [List.append_assoc, List.drop_left]
  rw [show HEADER_BITS = (bytesToBits (encHeader text lvl ++
    [checksum8 (encHeader text lvl)])).length by rw [bytesToBits_length]; rfl]
  rw [List.take_left]

theorem codeword_slice (text : String) (lvl : Nat) :
    (encBits text lvl).drop (START_PATTERN_BITS.length + HEADER_BITS) =
      bytesToBits (simpleRS (encPayload text lvl) (eccMapLookup lvl)) := by
  unfold encBits
  rw [← List.drop_drop, List.append_assoc, List.drop_left]
  rw [show HEADER_BITS = (bytesToBits (encHeader text lvl ++
    [checksum8 (encHeader text lvl)])).length by rw [bytesToBits_length]; rfl]
  rw [List.drop_left]

theorem tryDecodeLinear_encBits (text : String) (lvl : Nat)
    (hlen1 : 1 ≤ (utf8Bytes text).length)
    (hlen2 : (utf8Bytes text).length ≤ 157 - eccMapLookup lvl)
    (hz : 5 * ((utf8Bytes text).filter (fun x => x = 0)).length ≤ 4 * (utf8Bytes text).length)
    (ho : 5 * ((utf8Bytes text).filter (fun x => x = 255)).length ≤
      4 * (utf8Bytes text).length)
    (hbom : text.data.head? ≠ some (Char.ofNat 65279)) :
    tryDecodeLinear (encBits text lvl) = some text := by
  have hecc : 8 ≤ eccMapLookup lvl ∧ eccMapLookup lvl ≤ 64 := by
    rcases eccMapLookup_cases lvl with h | h | h | h <;> rw [h] <;> omega
  have hlen1344 : (encBits text lvl).length = 1344 := encBits_length text lvl hlen2
  have hhdr : bitsToBytes (((encBits text lvl).drop START_PATTERN_BITS.length).take
      HEADER_BITS) = encHeader text lvl ++ [checksum8 (encHeader text lvl)] := by
    rw [header_slice text lvl]
    exact bitsToBytes_bytesToBits _ (encHeaderFull_lt_256 text lvl)
  have hpay : (((encHeader text lvl ++ [checksum8 (encHeader text lvl)]).getD 2 0) <<< 8) |||
      ((encHeader text lvl ++ [checksum8 (encHeader text lvl)]).getD 3 0) =
      (utf8Bytes text).length := by
    have e2 : (encHeader text lvl ++ [checksum8 (encHeader text lvl)]).getD 2 0 =
      (utf8Bytes text).length / 256 % 256 := rfl
    have e3 : (encHeader text lvl ++ [checksum8 (encHeader text lvl)]).getD 3 0 =
      (utf8Bytes text).length % 256 := rfl
    rw [e2, e3, show (utf8Bytes text).length / 256 % 256 = 0 by omega, Nat.zero_shiftLeft,
      Nat.zero_or, Nat.mod_eq_of_lt (by omega)]
  have hel : (((encHeader text lvl ++ [checksum8 (encHeader text lvl)]).getD 4 0) <<< 8) |||
      ((encHeader text lvl ++ [checksum8 (encHeader text lvl)]).getD 5 0) =
      eccMapLookup lvl := by
    have e4 : (encHeader text lvl ++ [checksum8 (encHeader text lvl)]).getD 4 0 =
      eccMapLookup lvl / 256 % 256 := rfl
    have e5 : (encHeader text lvl ++ [checksum8 (encHeader text lvl)]).getD 5 0 =
      eccMapLookup lvl % 256 := rfl
    rw [e4, e5, show eccMapLookup lvl / 256 % 256 = 0 by omega, Nat.zero_shiftLeft,
      Nat.zero_or, Nat.mod_eq_of_lt (by omega)]
  unfold tryDecodeLinear
  dsimp only
  rw [hhdr]
  rw [if_neg (by rw [hlen1344]; decide)]
  rw [if_neg (by show ¬((encHeader text lvl ++ [checksum8 (encHeader text lvl)]).length ≠ 7)
                 simp [encHeader])]
  rw [hpay, hel]
  rw [if_neg (by
    show ¬(checksum8 ((encHeader text lvl ++ [checksum8 (encHeader text lvl)]).take 6) ≠
      (encHeader text lvl ++ [checksum8 (encHeader text lvl)]).getD 6 0)
    have ht : (encHeader text lvl ++ [checksum8 (encHeader text lvl)]).take 6 =
      encHeader text lvl := rfl
    have hg : (encHeader text lvl ++ [checksum8 (encHeader text lvl)]).getD 6 0 =
      checksum8 (encHeader text lvl) := rfl
    rw [ht, hg]
    simp)]
  rw [if_neg (by omega)]
  rw [if_neg (by rw [capacityDataBits_eq]; omega)]
  rw [if_neg (by rw [hlen1344, start_pattern_length]
                 show ¬(32 + 56 + ((utf8Bytes text).length + eccMapLookup lvl) * 8 > 1344)
                 omega)]
  rw [codeword_slice text lvl]
  rw [show ((utf8Bytes text).length + eccMapLookup lvl) * 8 =
    8 * ((utf8Bytes text).length + eccMapLookup lvl) by ring, bytesToBits_take]
  rw [bitsToBytes_bytesToBits _ (fun x hx => simpleRS_lt_256 _ _ (encPayload_lt_256 text lvl)
    x (List.take_subset _ _ hx))]
  rw [rsDecodeSimple_encoded text lvl hlen1 hlen2 hz ho]
  dsimp only
  rw [List.take_length, utf8Decode_utf8Bytes text hbom]

set_option maxRecDepth 100000

/-! ### Claim theorems -/

/-- C1 counterexample: the empty text is within every level's payload bound,
`encodeText` accepts it, but decoding the resulting bitstream returns `none`
(the parsed payload length 0 is rejected), so the round trip fails. -/
theorem c1_counterexample :
    (utf8Bytes (String.mk [])).length ≤ (capacityDataBits - eccMapLookup 0 * 8) / 8 ∧
      (encodeText (String.mk []) 0).bind tryDecodeLinear = none := by decide

/-- C1 (amended): for every eccLevel in 0..3 and every text whose UTF-8
encoding is nonempty, fits in the level's max payload bytes, and is not
dominated (strictly more than 80 percent) by 0 bytes nor by 255 bytes,
decoding the bitstream produced by `encodeText` returns the text exactly. -/
theorem c1_roundtrip (text : String) (lvl : Nat) (_hlvl : lvl < 4)
    (h1 : 1 ≤ (utf8Bytes text).length)
    (h2 : (utf8Bytes text).length ≤ (capacityDataBits - eccMapLookup lvl * 8) / 8)
    (hz : 5 * ((utf8Bytes text).filter (fun x => x = 0)).length ≤ 4 * (utf8Bytes text).length)
    (ho : 5 * ((utf8Bytes text).filter (fun x => x = 255)).length ≤
      4 * (utf8Bytes text).length)
    (hbom : text.data.head? ≠ some (Char.ofNat 65279)) :
    (encodeText text lvl).bind tryDecodeLinear = some text := by
  have h2' : (utf8Bytes text).length ≤ 157 - eccMapLookup lvl := by
    rw [← maxPayload_eq lvl]; exact h2
  rw [encodeText_eq_encBits text lvl h2']
  show tryDecodeLinear (encBits text lvl) = some text
  exact tryDecodeLinear_encBits text lvl h1 h2' hz ho hbom

/-- C1 witness at a concrete input. -/
theorem c1_witness :
    (encodeText (String.mk ['H', 'i']) 0).bind tryDecodeLinear =
      some (String.mk ['H', 'i']) :=
  c1_roundtrip (String.mk ['H', 'i']) 0 (by decide) (by decide) (by decide) (by decide)
    (by decide) (by decide)

/-- Failure characterization of `encodeText` in the program's own terms. -/
theorem encodeText_none_iff (text : String) (lvl : Nat) :
    encodeText text lvl = none ↔
      (utf8Bytes text).length > (capacityDataBits - eccMapLookup lvl * 8) / 8 := by
  unfold encodeText
  dsimp only
  split_ifs with h
  · simp [h]
  · simp [h]

/-- C2: `encodeText` fails exactly when the UTF-8 byte length of the text
exceeds the level's max payload capacity: 149, 141, 125, 93 bytes for levels
0, 1, 2, 3.  In particular text of exactly the max length succeeds and one
byte longer fails. -/
theorem c2_payload_bound (text : String) (lvl : Nat) (hlvl : lvl < 4) :
    encodeText text lvl = none ↔
      (utf8Bytes text).length > [149, 141, 125, 93].getD lvl 0 := by
  rw [encodeText_none_iff]
  interval_cases lvl <;> norm_num [maxPayload_eq, eccMapLookup, capacityDataBits_eq]

/-- C2 witness at a concrete input. -/
theorem c2_witness :
    encodeText (String.mk ['a']) 0 = none ↔
      (utf8Bytes (String.mk ['a'])).length > [149, 141, 125, 93].getD 0 0 :=
  c2_payload_bound (String.mk ['a']) 0 (by decide)

/-- C3 counterexample: a codeword whose data bytes are exactly 80 percent
zeros (4 of 5) is at least 80 percent dominated, yet `rsDecodeSimple`
accepts it, because the code's test is strict (`>`), not `≥`. -/
theorem c3_counterexample :
    5 * ((([0, 0, 0, 0, 1, 0] : List Nat).take (6 - 1)).filter (fun x => x = 0)).length ≥
        4 * (6 - 1) ∧
      rsDecodeSimple [0, 0, 0, 0, 1, 0] 1 = some [0, 0, 0, 0, 1] := by decide

/-- C3 (amended): a codeword in which strictly more than 80 percent of the
data bytes equal 0, or strictly more than 80 percent equal 255, is rejected
by redundancy validation. -/
theorem c3_reject_dominated (cw : List Nat) (ecc : Nat)
    (h : 5 * ((cw.take (cw.length - ecc)).filter (fun x => x = 0)).length >
        4 * (cw.length - ecc) ∨
      5 * ((cw.take (cw.length - ecc)).filter (fun x => x = 255)).length >
        4 * (cw.length - ecc)) :
    rsDecodeSimple cw ecc = none := by
  unfold rsDecodeSimple
  dsimp only
  split_ifs with h1 h2
  · rfl
  · rfl
  · exfalso
    rw [not_or] at h1
    obtain ⟨h1a, h1b⟩ := h1
    have hlen : ecc ≤ cw.length := by omega
    have htn : (((cw.length : Int) - (ecc : Int)).toNat) = cw.length - ecc := by omega
    rw [htn] at h2
    rw [not_or] at h2
    obtain ⟨h2a, h2b⟩ := h2
    rcases h with h | h
    · apply h2a
      omega
    · apply h2b
      omega

/-- C3 witness at a concrete input. -/
theorem c3_witness : rsDecodeSimple [0, 0, 0, 0, 0, 1] 1 = none :=
  c3_reject_dominated [0, 0, 0, 0, 0, 1] 1 (Or.inl (by decide))

/-- C5: the layout holds 1344 bits in total, 1256 data bits after the 32-bit
start pattern and 56-bit header, and every accepted `encodeText` call
returns exactly 1344 bits. -/
theorem c5_capacity :
    capacityBits = 1344 ∧ capacityDataBits = 1256 ∧
      ∀ (text : String) (lvl : Nat) (bits : List Nat),
        encodeText text lvl = some bits → bits.length = 1344 := by
  refine ⟨capacityBits_eq, capacityDataBits_eq, ?_⟩
  intro text lvl bits h
  unfold encodeText at h
  dsimp only at h
  split_ifs at h
  rw [Option.some_inj] at h
  rw [← h, List.length_take, List.length_append, List.length_replicate, capacityBits_eq]
  omega

/-- C5 witness at a concrete input. -/
theorem c5_witness : (encBits (String.mk ['a']) 0).length = 1344 :=
  c5_capacity.2.2 (String.mk ['a']) 0 (encBits (String.mk ['a']) 0)
    (encodeText_eq_encBits (String.mk ['a']) 0 (by decide))

/-- C6: the trailing redundancy bytes never influence `rsDecodeSimple`: two
codewords of equal length agreeing on their data prefix decode identically,
whatever their redundancy bytes contain. -/
theorem c6_redundancy_ignored (cw1 cw2 : List Nat) (ecc : Nat)
    (hlen : cw1.length = cw2.length)
    (hdata : cw1.take (cw1.length - ecc) = cw2.take (cw2.length - ecc)) :
    rsDecodeSimple cw1 ecc = rsDecodeSimple cw2 ecc := by
  unfold rsDecodeSimple
  dsimp only
  rw [hlen] at hdata ⊢
  by_cases h1 : ((cw2.length : Int) - (ecc : Int) ≤ 0 ∨ cw2.length < ecc)
  · rw [if_pos h1, if_pos h1]
  · rw [if_neg h1, if_neg h1]
    rw [not_or] at h1
    have htn : (((cw2.length : Int) - (ecc : Int)).toNat) = cw2.length - ecc := by omega
    rw [htn, hdata]

/-- C6 witness at a concrete input. -/
theorem c6_witness : rsDecodeSimple [1, 2, 3, 9] 1 = rsDecodeSimple [1, 2, 3, 7] 1 :=
  c6_redundancy_ignored [1, 2, 3, 9] [1, 2, 3, 7] 1 (by decide) (by decide)

/-- C7: `simpleRS` appends exactly `n` redundancy bytes to the payload;
redundancy byte `i` is the XOR over all payload bytes of `byte * (i + 1)`,
masked to 8 bits. -/
theorem c7_redundancy_bytes (payload : List Nat) (n : Nat) :
    (simpleRS payload n).length = payload.length + n ∧
      (simpleRS payload n).take payload.length = payload ∧
      ∀ i, i < n → (simpleRS payload n).getD (payload.length + i) 0 =
        (payload.foldl (fun s d => s ^^^ (d * (i + 1))) 0) % 256 := by
  refine ⟨?_, ?_, ?_⟩
  · unfold simpleRS
    rw [List.length_append, List.length_map, List.length_range]
  · unfold simpleRS
    exact List.take_left payload _
  · intro i hi
    unfold simpleRS
    rw [List.getD_append_right _ _ _ _ (by omega), Nat.add_sub_cancel_left,
      List.getD_eq_getElem?_getD, List.getElem?_map, List.getElem?_range hi]
    rfl

/-- C7 witness at a concrete input. -/
theorem c7_witness :
    (simpleRS [1, 2, 3] 2).getD (([1, 2, 3] : List Nat).length + 1) 0 =
      (([1, 2, 3] : List Nat).foldl (fun s d => s ^^^ (d * (1 + 1))) 0) % 256 :=
  (c7_redundancy_bytes [1, 2, 3] 2).2.2 1 (by decide)

/-- C8: the start-pattern bits are never inspected by `tryDecodeLinear`: two
bitstreams of equal length that agree from the start-pattern boundary on
decode identically. -/
theorem c8_start_pattern_ignored (l1 l2 : List Nat)
    (hlen : l1.length = l2.length)
    (htail : l1.drop START_PATTERN_BITS.length = l2.drop START_PATTERN_BITS.length) :
    tryDecodeLinear l1 = tryDecodeLinear l2 := by
  unfold tryDecodeLinear
  dsimp only
  rw [hlen, ← List.drop_drop, ← List.drop_drop, htail]

/-- C8 witness at a concrete input. -/
theorem c8_witness :
    tryDecodeLinear (List.replicate 32 1) = tryDecodeLinear (List.replicate 32 0) :=
  c8_start_pattern_ignored (List.replicate 32 1) (List.replicate 32 0) (by decide) (by decide)

/-- C9: the all-zero bitstream of full capacity is rejected: its zero header
checksum does match the zero checksum byte, but the parsed payload length is
0, which the decoder rejects, so `tryDecodeLinear` returns `none`. -/
theorem c9_all_zero_rejected :
    tryDecodeLinear (List.replicate capacityBits 0) = none ∧
      checksum8 ((bitsToBytes (((List.replicate capacityBits 0).drop
          START_PATTERN_BITS.length).take HEADER_BITS)).take 6) =
        (bitsToBytes (((List.replicate capacityBits 0).drop
          START_PATTERN_BITS.length).take HEADER_BITS)).getD 6 0 ∧
      ((bitsToBytes (((List.replicate capacityBits 0).drop
          START_PATTERN_BITS.length).take HEADER_BITS)).getD 2 0 <<< 8) |||
        (bitsToBytes (((List.replicate capacityBits 0).drop
          START_PATTERN_BITS.length).take HEADER_BITS)).getD 3 0 = 0 := by decide

/-- C10 counterexample: at eccLevel 256 the encoder succeeds and falls back
to 32 redundancy bytes, but the header's ecc-level byte holds 0 (the value
truncated modulo 256), not the given 256. -/
theorem c10_counterexample :
    (encodeText (String.mk ['a']) 256).map (fun bits =>
        (bitsToBytes ((bits.drop START_PATTERN_BITS.length).take HEADER_BITS)).getD 1 0) =
      some 0 ∧ (0 : Nat) ≠ 256 := by
  constructor
  · rw [encodeText_eq_encBits (String.mk ['a']) 256 (by decide)]
    rw [Option.map_some']
    rw [header_slice, bitsToBytes_bytesToBits _ (encHeaderFull_lt_256 (String.mk ['a']) 256)]
    rfl
  · decide

/-- C10 (amended): for every eccLevel outside 0..3, `encodeText` does not
fail on the level argument: it falls back to 32 redundancy bytes (max
payload 125 bytes, level-2 behaviour) while writing `eccLevel mod 256` into
the header's ecc-level byte. -/
theorem c10_fallback (text : String) (lvl : Nat) (hlvl : 4 ≤ lvl) :
    (encodeText text lvl = none ↔ (utf8Bytes text).length > 125) ∧
      ∀ bits, encodeText text lvl = some bits →
        (bitsToBytes ((bits.drop START_PATTERN_BITS.length).take HEADER_BITS)).getD 1 0 =
          lvl % 256 := by
  have he : eccMapLookup lvl = 32 := by
    unfold eccMapLookup
    rw [if_neg (by omega), if_neg (by omega), if_neg (by omega), if_neg (by omega)]
  constructor
  · rw [encodeText_none_iff, he, capacityDataBits_eq]
  · intro bits hb
    have hsz : (utf8Bytes text).length ≤ 157 - eccMapLookup lvl := by
      by_contra hc
      push_neg at hc
      have hnone : encodeText text lvl = none :=
        (encodeText_none_iff text lvl).mpr (by rw [maxPayload_eq]; omega)
      rw [hnone] at hb
      exact Option.noConfusion hb
    rw [encodeText_eq_encBits text lvl hsz, Option.some_inj] at hb
    subst hb
    rw [header_slice, bitsToBytes_bytesToBits _ (encHeaderFull_lt_256 text lvl)]
    rfl

/-- C10 witness at a concrete input. -/
theorem c10_witness :
    (bitsToBytes (((encBits (String.mk ['a']) 5).drop START_PATTERN_BITS.length).take
      HEADER_BITS)).getD 1 0 = 5 % 256 :=
  (c10_fallback (String.mk ['a']) 5 (by decide)).2 (encBits (String.mk ['a']) 5)
    (encodeText_eq_encBits (String.mk ['a']) 5 (by decide))


/-! ### Checksum bit-flip sensitivity (C4) -/

theorem getD_set_ne (l : List Nat) (i j v : Nat) (h : i ≠ j) :
    (l.set i v).getD j 0 = l.getD j 0 := by
  rw [List.getD_eq_getElem?_getD, List.getElem?_set, if_neg h, ← List.getD_eq_getElem?_getD]

theorem getD_set_eq (l : List Nat) (i v : Nat) (h : i < l.length) :
    (l.set i v).getD i 0 = v := by
  rw [List.getD_eq_getElem?_getD, List.getElem?_set, if_pos rfl, if_pos h]
  rfl

theorem bitsToBytes_length (bits : List Nat) :
    (bitsToBytes bits).length = (bits.length + 7) / 8 := by
  unfold bitsToBytes
  rw [List.length_map, List.length_range]

theorem bitsToBytes_56 (hb : List Nat) (h56 : hb.length = 56) :
    bitsToBytes hb = [byteOf8 (hb.getD 0 0) (hb.getD 1 0) (hb.getD 2 0) (hb.getD 3 0) (hb.getD 4 0) (hb.getD 5 0) (hb.getD 6 0) (hb.getD 7 0),
      byteOf8 (hb.getD 8 0) (hb.getD 9 0) (hb.getD 10 0) (hb.getD 11 0) (hb.getD 12 0) (hb.getD 13 0) (hb.getD 14 0) (hb.getD 15 0),
      byteOf8 (hb.getD 16 0) (hb.getD 17 0) (hb.getD 18 0) (hb.getD 19 0) (hb.getD 20 0) (hb.getD 21 0) (hb.getD 22 0) (hb.getD 23 0),
      byteOf8 (hb.getD 24 0) (hb.getD 25 0) (hb.getD 26 0) (hb.getD 27 0) (hb.getD 28 0) (hb.getD 29 0) (hb.getD 30 0) (hb.getD 31 0),
      byteOf8 (hb.getD 32 0) (hb.getD 33 0) (hb.getD 34 0) (hb.getD 35 0) (hb.getD 36 0) (hb.getD 37 0) (hb.getD 38 0) (hb.getD 39 0),
      byteOf8 (hb.getD 40 0) (hb.getD 41 0) (hb.getD 42 0) (hb.getD 43 0) (hb.getD 44 0) (hb.getD 45 0) (hb.getD 46 0) (hb.getD 47 0),
      byteOf8 (hb.getD 48 0) (hb.getD 49 0) (hb.getD 50 0) (hb.getD 51 0) (hb.getD 52 0) (hb.getD 53 0) (hb.getD 54 0) (hb.getD 55 0)] := by
  unfold bitsToBytes
  rw [h56]
  rfl

theorem checksum6_eq_sum (hb : List Nat) (h56 : hb.length = 56)
    (hbit : ∀ m : Nat, hb.getD m 0 ≤ 1) :
    checksum8 ((bitsToBytes hb).take 6) =
      (∑ m ∈ Finset.range 48, 2 ^ (7 - m % 8) * hb.getD m 0) % 256 := by
  rw [bitsToBytes_56 hb h56]
  show checksum8 [byteOf8 (hb.getD 0 0) (hb.getD 1 0) (hb.getD 2 0) (hb.getD 3 0) (hb.getD 4 0) (hb.getD 5 0) (hb.getD 6 0) (hb.getD 7 0),
    byteOf8 (hb.getD 8 0) (hb.getD 9 0) (hb.getD 10 0) (hb.getD 11 0) (hb.getD 12 0) (hb.getD 13 0) (hb.getD 14 0) (hb.getD 15 0),
    byteOf8 (hb.getD 16 0) (hb.getD 17 0) (hb.getD 18 0) (hb.getD 19 0) (hb.getD 20 0) (hb.getD 21 0) (hb.getD 22 0) (hb.getD 23 0),
    byteOf8 (hb.getD 24 0) (hb.getD 25 0) (hb.getD 26 0) (hb.getD 27 0) (hb.getD 28 0) (hb.getD 29 0) (hb.getD 30 0) (hb.getD 31 0),
    byteOf8 (hb.getD 32 0) (hb.getD 33 0) (hb.getD 34 0) (hb.getD 35 0) (hb.getD 36 0) (hb.getD 37 0) (hb.getD 38 0) (hb.getD 39 0),
    byteOf8 (hb.getD 40 0) (hb.getD 41 0) (hb.getD 42 0) (hb.getD 43 0) (hb.getD 44 0) (hb.getD 45 0) (hb.getD 46 0) (hb.getD 47 0)] = _
  rw [byteOf8_eq (hb.getD 0 0) (hb.getD 1 0) (hb.getD 2 0) (hb.getD 3 0) (hb.getD 4 0) (hb.getD 5 0) (hb.getD 6 0) (hb.getD 7 0) (hbit 0) (hbit 1) (hbit 2) (hbit 3) (hbit 4) (hbit 5) (hbit 6) (hbit 7),
    byteOf8_eq (hb.getD 8 0) (hb.getD 9 0) (hb.getD 10 0) (hb.getD 11 0) (hb.getD 12 0) (hb.getD 13 0) (hb.getD 14 0) (hb.getD 15 0) (hbit 8) (hbit 9) (hbit 10) (hbit 11) (hbit 12) (hbit 13) (hbit 14) (hbit 15),
    byteOf8_eq (hb.getD 16 0) (hb.getD 17 0) (hb.getD 18 0) (hb.getD 19 0) (hb.getD 20 0) (hb.getD 21 0) (hb.getD 22 0) (hb.getD 23 0) (hbit 16) (hbit 17) (hbit 18) (hbit 19) (hbit 20) (hbit 21) (hbit 22) (hbit 23),
    byteOf8_eq (hb.getD 24 0) (hb.getD 25 0) (hb.getD 26 0) (hb.getD 27 0) (hb.getD 28 0) (hb.getD 29 0) (hb.getD 30 0) (hb.getD 31 0) (hbit 24) (hbit 25) (hbit 26) (hbit 27) (hbit 28) (hbit 29) (hbit 30) (hbit 31),
    byteOf8_eq (hb.getD 32 0) (hb.getD 33 0) (hb.getD 34 0) (hb.getD 35 0) (hb.getD 36 0) (hb.getD 37 0) (hb.getD 38 0) (hb.getD 39 0) (hbit 32) (hbit 33) (hbit 34) (hbit 35) (hbit 36) (hbit 37) (hbit 38) (hbit 39),
    byteOf8_eq (hb.getD 40 0) (hb.getD 41 0) (hb.getD 42 0) (hb.getD 43 0) (hb.getD 44 0) (hb.getD 45 0) (hb.getD 46 0) (hb.getD 47 0) (hbit 40) (hbit 41) (hbit 42) (hbit 43) (hbit 44) (hbit 45) (hbit 46) (hbit 47)]
  simp only [checksum8, List.foldl]
  simp only [Finset.sum_range_succ, Finset.sum_range_zero]
  norm_num
  omega


theorem checksum6_flip (hb : List Nat) (h56 : hb.length = 56)
    (hbit : ∀ m : Nat, hb.getD m 0 ≤ 1) (q : Nat) (hq : q < 48) :
    checksum8 ((bitsToBytes (hb.set q (1 - hb.getD q 0))).take 6) ≠
      checksum8 ((bitsToBytes hb).take 6) := by
  have h56fl : (hb.set q (1 - hb.getD q 0)).length = 56 := by
    rw [List.length_set, h56]
  have hbitfl : ∀ m : Nat, (hb.set q (1 - hb.getD q 0)).getD m 0 ≤ 1 := by
    intro m
    by_cases hm : q = m
    · subst hm
      rw [getD_set_eq hb q _ (by omega)]
      omega
    · rw [getD_set_ne hb q m _ hm]
      exact hbit m
  rw [checksum6_eq_sum _ h56fl hbitfl, checksum6_eq_sum hb h56 hbit]
  have hmem : q ∈ Finset.range 48 := Finset.mem_range.mpr hq
  rw [Finset.sum_eq_sum_diff_singleton_add hmem, Finset.sum_eq_sum_diff_singleton_add hmem]
  have hcongr : ∑ m ∈ Finset.range 48 \ {q},
      2 ^ (7 - m % 8) * (hb.set q (1 - hb.getD q 0)).getD m 0 =
      ∑ m ∈ Finset.range 48 \ {q}, 2 ^ (7 - m % 8) * hb.getD m 0 := by
    refine Finset.sum_congr rfl (fun m hm => ?_)
    rw [Finset.mem_sdiff, Finset.mem_singleton] at hm
    rw [getD_set_ne hb q m _ (fun h => hm.2 h.symm)]
  rw [hcongr, getD_set_eq hb q _ (by omega)]
  have hc1 : 1 ≤ 2 ^ (7 - q % 8) := Nat.one_le_two_pow
  have hc2 : (2 : Nat) ^ (7 - q % 8) ≤ 128 := by
    calc (2 : Nat) ^ (7 - q % 8) ≤ 2 ^ 7 := Nat.pow_le_pow_right (by norm_num) (by omega)
    _ = 128 := by norm_num
  rcases Nat.le_one_iff_eq_zero_or_eq_one.mp (hbit q) with h0 | h1
  · rw [h0]
    intro heq
    omega
  · rw [h1]
    intro heq
    omega


theorem slice_set (l : List Nat) (p v : Nat) (hp1 : 32 ≤ p) (hp2 : p < 88)
    (hlen : 88 ≤ l.length) :
    ((l.set p v).drop 32).take 56 = ((l.drop 32).take 56).set (p - 32) v := by
  apply List.ext_getElem?
  intro i
  simp only [List.getElem?_take, List.getElem?_set, List.getElem?_drop, List.length_take,
    List.length_drop, List.length_set, lt_min_iff]
  split_ifs <;> first | rfl | omega


theorem bitsToBytes_getD6 (hb : List Nat) (h56 : hb.length = 56) :
    (bitsToBytes hb).getD 6 0 = byteOf8 (hb.getD 48 0) (hb.getD 49 0) (hb.getD 50 0) (hb.getD 51 0) (hb.getD 52 0) (hb.getD 53 0) (hb.getD 54 0) (hb.getD 55 0) := by
  rw [bitsToBytes_56 hb h56]
  rfl

theorem bitsToBytes_getD6_set (hb : List Nat) (h56 : hb.length = 56) (q v : Nat)
    (hq : q < 48) :
    (bitsToBytes (hb.set q v)).getD 6 0 = (bitsToBytes hb).getD 6 0 := by
  rw [bitsToBytes_getD6 _ (by rw [List.length_set]; exact h56), bitsToBytes_getD6 _ h56]
  rw [getD_set_ne _ _ 48 _ (by omega),
      getD_set_ne _ _ 49 _ (by omega),
      getD_set_ne _ _ 50 _ (by omega),
      getD_set_ne _ _ 51 _ (by omega),
      getD_set_ne _ _ 52 _ (by omega),
      getD_set_ne _ _ 53 _ (by omega),
      getD_set_ne _ _ 54 _ (by omega),
      getD_set_ne _ _ 55 _ (by omega)]


/-- C4: on a well-formed bitstream (one whose stored header checksum matches
the recomputed checksum of the first 6 header bytes), flipping any single
bit in the region of the first 6 header bytes (bit positions 32 to 79)
changes the recomputed checksum so that it no longer matches the stored
checksum byte, and `tryDecodeLinear` rejects the modified bitstream. -/
theorem c4_flip_header_bit (linear : List Nat) (p : Nat)
    (hbits : ∀ x ∈ linear, x ≤ 1)
    (hlen : 88 ≤ linear.length)
    (hwf : checksum8 ((bitsToBytes ((linear.drop START_PATTERN_BITS.length).take
        HEADER_BITS)).take 6) =
      (bitsToBytes ((linear.drop START_PATTERN_BITS.length).take HEADER_BITS)).getD 6 0)
    (hp1 : 32 ≤ p) (hp2 : p < 80) :
    checksum8 ((bitsToBytes (((linear.set p (1 - linear.getD p 0)).drop
        START_PATTERN_BITS.length).take HEADER_BITS)).take 6) ≠
      (bitsToBytes (((linear.set p (1 - linear.getD p 0)).drop
        START_PATTERN_BITS.length).take HEADER_BITS)).getD 6 0 ∧
    tryDecodeLinear (linear.set p (1 - linear.getD p 0)) = none := by
  have hSP : START_PATTERN_BITS.length = 32 := start_pattern_length
  have hHB : HEADER_BITS = 56 := rfl
  rw [hSP, hHB] at hwf ⊢
  have h56 : ((linear.drop 32).take 56).length = 56 := by
    rw [List.length_take, List.length_drop]
    omega
  have hbitshb : ∀ m : Nat, ((linear.drop 32).take 56).getD m 0 ≤ 1 :=
    getD_le_one _ (fun x hx => hbits x (List.drop_subset _ _ (List.take_subset _ _ hx)))
  have hq : p - 32 < 48 := by omega
  have hgd : ((linear.drop 32).take 56).getD (p - 32) 0 = linear.getD p 0 := by
    rw [List.getD_eq_getElem?_getD, List.getElem?_take, if_pos (by omega : p - 32 < 56),
      List.getElem?_drop, show 32 + (p - 32) = p by omega, ← List.getD_eq_getElem?_getD]
  have hslice : ((linear.set p (1 - linear.getD p 0)).drop 32).take 56 =
      ((linear.drop 32).take 56).set (p - 32)
        (1 - ((linear.drop 32).take 56).getD (p - 32) 0) := by
    rw [hgd]
    exact slice_set linear p _ hp1 (by omega) hlen
  have hflip := checksum6_flip ((linear.drop 32).take 56) h56 hbitshb (p - 32) hq
  have hstored := bitsToBytes_getD6_set ((linear.drop 32).take 56) h56 (p - 32)
    (1 - ((linear.drop 32).take 56).getD (p - 32) 0) hq
  have hmain : checksum8 ((bitsToBytes (((linear.set p (1 - linear.getD p 0)).drop 32).take
      56)).take 6) ≠
      (bitsToBytes (((linear.set p (1 - linear.getD p 0)).drop 32).take 56)).getD 6 0 := by
    rw [hslice, hstored, ← hwf]
    exact hflip
  refine ⟨hmain, ?_⟩
  unfold tryDecodeLinear
  dsimp only
  rw [hSP, hHB, List.length_set]
  rw [if_neg (by omega)]
  rw [if_neg (by
    rw [bitsToBytes_length, List.length_take, List.length_drop, List.length_set]
    show ¬(min 56 (linear.length - 32) + 7) / 8 ≠ 7
    rw [min_eq_left (by omega)]
    decide)]
  rw [if_pos hmain]


/-- C4 witness at a concrete input: flipping bit 40 of the sample stream. -/
theorem c4_witness :
    checksum8 ((bitsToBytes (((sampleStream.set 40 (1 - sampleStream.getD 40 0)).drop
        START_PATTERN_BITS.length).take HEADER_BITS)).take 6) ≠
      (bitsToBytes (((sampleStream.set 40 (1 - sampleStream.getD 40 0)).drop
        START_PATTERN_BITS.length).take HEADER_BITS)).getD 6 0 ∧
    tryDecodeLinear (sampleStream.set 40 (1 - sampleStream.getD 40 0)) = none :=
  c4_flip_header_bit sampleStream 40 (by decide) (by decide) (by decide) (by decide)
    (by decide)

end RingCode
